import Mathlib

/-!
# Verification of the yengine wire codec, topic classifier and routing rules

Shallow embedding of the yengine Rust sources. Strings are modelled as lists
of Unicode code points (`List Nat`), mirroring Rust's `str::chars` iteration.
-/

/-- A string, as the list of its characters' code points. -/
abbrev Str := List Nat

/-- Convenience conversion from a Lean string literal to the model. -/
def strOf (s : String) : Str := s.data.map Char.toNat

/-! ## Escape codec (`src/format/upcode.rs`) -/

/-- `updecode` from upcode.rs: `%` maps to itself; a code in `64..=127`
maps to `code - 64`; anything else (including non-`u8` chars) is an error. -/
def updecode (c : Nat) : Option Nat :=
  if c = 37 then some 37
  else if 64 ≤ c ∧ c ≤ 127 then some (c - 64)
  else none

/-- The decoding loop of `decode` from upcode.rs: walks the characters with a
`decoding` flag; `%` sets the flag, and the next character goes through
`updecode`.  A trailing `%` at end of input is silently dropped. -/
def decodeLoop : Str → Bool → Option Str
  | [], _ => some []
  | c :: rest, true =>
      match updecode c with
      | some d => (decodeLoop rest false).map (d :: ·)
      | none => none
  | c :: rest, false =>
      if c = 37 then decodeLoop rest true
      else (decodeLoop rest false).map (c :: ·)

/-- `decode` from upcode.rs, including the zero-copy fast path taken when the
input contains no `%`. -/
def decode (s : Str) : Option Str :=
  if ¬ s.contains 37 then some s
  else decodeLoop s false

/-- The final state of the `decoding` flag after walking a string; `true`
means the string ends inside an unfinished `%`-escape. -/
def escState : Str → Bool → Bool
  | [], b => b
  | _ :: rest, true => escState rest false
  | c :: rest, false => if c = 37 then escState rest true else escState rest false

/-- The predicate of `encode` from upcode.rs: a character is escaped iff it is
an ASCII control character (`< 32` or `127`), `%`, or `:`. -/
def isEncodable (c : Nat) : Bool :=
  (decide (c < 32) || decide (c = 127)) || (c == 37 || c == 58)

/-- `upencode` from upcode.rs: `%` maps to itself, anything else to
`(c as u8) + 64` with `u8` wrap-around semantics. -/
def upencode (c : Nat) : Nat :=
  if c = 37 then 37 else (c % 256 + 64) % 256

/-- `encode` from upcode.rs, including the zero-copy fast path when no
character needs escaping. -/
def encode (s : Str) : Str :=
  if (s.filter (fun c => isEncodable c)).length = 0 then s
  else s.flatMap (fun c => if isEncodable c then [37, upencode c] else [c])

/-! ## Frame segmentation

`from_str` splits the input on `":"` exactly as Rust's `str::split` does:
splitting the empty string yields one empty segment. -/

/-- Rust `input.split(":")` on the character-list model. -/
def splitColon : Str → List Str
  | [] => [[]]
  | c :: rest =>
      if c = 58 then [] :: splitColon rest
      else
        match splitColon rest with
        | s :: ss => (c :: s) :: ss
        | [] => [[c]]

/-- The serializer's `parts.join(":")`. -/
def joinColon (parts : List Str) : Str := (parts.intersperse [58]).flatten

/-! ## Scalar parsing and printing

Models of `facet`'s `parse_from_str` / `Display` for the scalar field types
used by the wire records (`String`, `u64`, `bool`). -/

/-- The base-10 digit list of `n` (most significant first, empty for 0). -/
def natDigits : Nat → List Nat
  | 0 => []
  | n + 1 => natDigits ((n + 1) / 10) ++ [(n + 1) % 10]
decreasing_by exact Nat.div_lt_self (Nat.succ_pos n) (by omega)

/-- `u64` formatting (Rust `Display`): decimal digits, `"0"` for zero. -/
def natToStr (n : Nat) : Str :=
  if n = 0 then [48] else (natDigits n).map (· + 48)

/-- Is `c` the code point of an ASCII decimal digit? -/
def isDigitCh (c : Nat) : Bool := 48 ≤ c && c ≤ 57

/-- Strip the optional leading `+` accepted by `u64::from_str`. -/
def stripPlus : Str → Str
  | 43 :: rest => rest
  | other => other

/-- `u64::from_str`: an optional leading `+`, then one or more decimal
digits, rejecting values that overflow 64 bits. -/
def natParse (s : Str) : Option Nat :=
  let t := stripPlus s
  if t ≠ [] ∧ t.all isDigitCh then
    let v := t.foldl (fun a c => 10 * a + (c - 48)) 0
    if v < 2 ^ 64 then some v else none
  else none

/-- `bool` formatting (Rust `Display`). -/
def boolToStr (b : Bool) : Str := if b then strOf "true" else strOf "false"

/-- `bool::from_str`: exactly `"true"` or `"false"`. -/
def boolParse (s : Str) : Option Bool :=
  if s = strOf "true" then some true
  else if s = strOf "false" then some false
  else none

/-! ## Reflective (de)serialization (`src/format/de.rs`, `src/format/ser.rs`)

The reflective walk of `facet` shapes is embedded as an interpreter over a
schema AST.  A field carries a `Bool` recording whether it declares a
default (`facet`'s `Field::has_default`). -/

/-- The shape of a reflected type: scalar (`String`/`u64`/`bool`), `Option`,
flattened map, or a (possibly tagged) struct with `(shape, has_default)`
fields.  Only top-level records carry a `type_tag`. -/
inductive Shape where
  | sstr : Shape
  | snat : Shape
  | sbool : Shape
  | sopt : Shape → Shape
  | smap : Shape
  | sstruct : Option Str → List (Shape × Bool) → Shape
deriving Repr

/-- An untyped deserialized value, the model of a completed `Partial`. -/
inductive DValue where
  | vstr : Str → DValue
  | vnat : Nat → DValue
  | vbool : Bool → DValue
  | vnone : DValue
  | vsome : DValue → DValue
  | vmap : List (Str × Str) → DValue
  | vstruct : List DValue → DValue
deriving Repr

/-- The error kind of `format::Error` (de.rs spells it `MisformatedMap`). -/
inductive DError where
  | reflect
  | missingTag
  | mismatchedTag
  | missingValue
  | misformatedMap
deriving Repr, DecidableEq

mutual

/-- `Partial::set_default`: the `Default` value of a shape (`None` for
options, the empty map, `""`, `0`, `false`, field-wise for structs). -/
def setDefault : Shape → DValue
  | .sstr => .vstr []
  | .snat => .vnat 0
  | .sbool => .vbool false
  | .sopt _ => .vnone
  | .smap => .vmap []
  | .sstruct _ fields => .vstruct (setDefaults fields)

/-- `set_default` applied field-wise. -/
def setDefaults : List (Shape × Bool) → List DValue
  | [] => []
  | f :: rest => setDefault f.1 :: setDefaults rest

end

/-- `parse_from_str` at a scalar shape. -/
def parseScalar : Shape → Str → Option DValue
  | .sstr, s => some (.vstr s)
  | .snat, s => (natParse s).map .vnat
  | .sbool, s => (boolParse s).map .vbool
  | _, _ => none

/-- `str::split_once('=')`: the text before and after the first `=`. -/
def splitFirstEq : Str → Option (Str × Str)
  | [] => none
  | c :: rest =>
      if c = 61 then some ([], rest)
      else (splitFirstEq rest).map fun p => (c :: p.1, p.2)

/-- `Deserializer::deserialize_map`: every remaining segment must contain a
`=` (else `MisformatedMap`); the entries are collected in input order. -/
def deserializeMapParts (parts : List Str) : Except DError (List (Str × Str)) :=
  parts.mapM fun kv =>
    match splitFirstEq kv with
    | some p => .ok p
    | none => .error .misformatedMap

/-- The tag check opening `deserialize_value`: when the shape declares a
`type_tag`, pop the first segment and compare (`MissingTag` when the part
queue is empty, `MismatchedTag` on a differing first segment). -/
def checkTag (sh : Shape) (parts : List Str) : Except DError (List Str) :=
  match sh with
  | .sstruct (some tag) _ =>
      match parts with
      | [] => .error .missingTag
      | seg :: rest => if seg = tag then .ok rest else .error .mismatchedTag
  | _ => .ok parts

mutual

/-- `Deserializer::deserialize_value` from de.rs: check the `type_tag` (if
any) against the popped first segment, then take the default when the input
is exhausted and a default is declared, then dispatch on the shape. -/
def deserializeValue (sh : Shape) (hd : Bool) (parts0 : List Str) :
    Except DError (DValue × List Str) :=
  match checkTag sh parts0 with
  | .error e => .error e
  | .ok parts =>
      if parts.isEmpty ∧ hd then .ok (setDefault sh, parts)
      else
        match sh with
        | .sstruct _ fields => deserializeFields fields hd parts
        | .sopt inner =>
            match parts with
            | [] => .error .missingValue
            | seg :: rest =>
                if seg = [] then .ok (.vnone, rest)
                else
                  match deserializeValue inner hd (seg :: rest) with
                  | .ok (v, parts') => .ok (.vsome v, parts')
                  | .error e => .error e
        | .smap =>
            match deserializeMapParts parts with
            | .ok entries => .ok (.vmap entries, [])
            | .error e => .error e
        | scalar =>
            match parts with
            | [] => .error .missingValue
            | seg :: rest =>
                match parseScalar scalar seg with
                | some v => .ok (v, rest)
                | none => .error .reflect

/-- The field loop of `deserialize_value` for structs: each field is
deserialized with `has_default || field.has_default()`. -/
def deserializeFields (fields : List (Shape × Bool)) (hd : Bool) (parts : List Str) :
    Except DError (DValue × List Str) :=
  match fields with
  | [] => .ok (.vstruct [], parts)
  | f :: rest =>
      match deserializeValue f.1 (hd || f.2) parts with
      | .error e => .error e
      | .ok (v, parts') =>
          match deserializeFields rest hd parts' with
          | .error e => .error e
          | .ok (.vstruct tl, parts'') => .ok (.vstruct (v :: tl), parts'')
          | .ok _ => .error .reflect

end

/-- `format::from_str` (de.rs): split the input on `:` and deserialize with
no default at top level; leftover segments are ignored by `materialize`. -/
def fromStrS (sh : Shape) (input : Str) : Except DError DValue :=
  (deserializeValue sh false (splitColon input)).map Prod.fst

mutual

/-- `Serializer::serialize_value` from ser.rs: push the `type_tag` (if any),
then dispatch; a `None` option with a declared default emits nothing, a
`None` without one emits an empty segment; a map emits one
`encode(key)=encode(value)` segment per entry, in map-iteration order;
scalars emit their `%`-encoded text. -/
def serializeValue (sh : Shape) (v : DValue) (hd : Bool) : List Str :=
  (match sh with
    | .sstruct (some tag) _ => [tag]
    | _ => []) ++
  match sh with
  | .sstruct _ fields =>
      match v with
      | .vstruct vs => serializeFields fields vs hd
      | _ => []
  | .sopt inner =>
      match v with
      | .vnone => if hd then [] else [[]]
      | .vsome w => serializeValue inner w hd
      | _ => []
  | .smap =>
      match v with
      | .vmap entries => entries.map fun e => encode e.1 ++ 61 :: encode e.2
      | _ => []
  | .sstr =>
      match v with
      | .vstr s => [encode s]
      | _ => []
  | .snat =>
      match v with
      | .vnat n => [encode (natToStr n)]
      | _ => []
  | .sbool =>
      match v with
      | .vbool b => [encode (boolToStr b)]
      | _ => []

/-- The field loop of `serialize_value` for structs, propagating
`has_default || field.has_default()`. -/
def serializeFields (fields : List (Shape × Bool)) (vs : List DValue) (hd : Bool) :
    List Str :=
  match fields, vs with
  | f :: fr, v :: vr => serializeValue f.1 v (hd || f.2) ++ serializeFields fr vr hd
  | _, _ => []

end

/-- `format::to_string` (ser.rs): serialize from the top with no default
flag and join the parts with `:`. -/
def toStrS (sh : Shape) (v : DValue) : Str := joinColon (serializeValue sh v false)

/-! ## Ordered map (`BTreeMap<String, String>`)

The current `wire` records carry their flattened key/value tail in a
`BTreeMap` (see `Engine::message`'s signature in `src/engine/mod.rs` and the
order-sensitive round-trip tests in `src/format/tests.rs`); it is modelled
as a key-sorted association list. -/

/-- Lexicographic strict order on strings (Rust `Ord` for `String`). -/
def strLtB : Str → Str → Bool
  | [], [] => false
  | [], _ :: _ => true
  | _ :: _, [] => false
  | a :: as_, b :: bs =>
      if a < b then true
      else if b < a then false
      else strLtB as_ bs

/-- `BTreeMap::insert`: keep the list sorted by key, replacing the value of
an existing key. -/
def mapInsert (k v : Str) : List (Str × Str) → List (Str × Str)
  | [] => [(k, v)]
  | (k', v') :: rest =>
      if strLtB k k' then (k, v) :: (k', v') :: rest
      else if k = k' then (k, v) :: rest
      else (k', v') :: mapInsert k v rest

/-- Build a `BTreeMap` from entries in insertion order (what `facet`'s
`begin_key`/`begin_value` loop does while materializing a flattened map). -/
def mkKv (entries : List (Str × Str)) : List (Str × Str) :=
  entries.foldl (fun m e => mapInsert e.1 e.2 m) []


/-! ## Wire records

Modelled from the spec: the current `wire` record definitions are absent
from `src/` (`src/format/mod.rs` is a stale generation — its `MessageAck`
still carries a `time` field and a `HashMap`, while `src/engine/mod.rs`
constructs `MessageAck { id, processed, name, retvalue, kv }` with a
`BTreeMap`).  Field lists follow spec §3, corroborated by the round-trip
fixtures in `src/format/tests.rs`; the trailing flattened-option fields
(`Install.filter`) declare a default, which the fixture
`%%>install::engine.timer` requires. -/

/-- `wire::Install` (`%%>install`). -/
structure Install where
  priority : Option Nat
  name : Str
  filter : Option (Str × Option Str)
deriving Repr, DecidableEq

/-- `wire::InstallAck` (`%%<install`). -/
structure InstallAck where
  priority : Nat
  name : Str
  success : Bool
deriving Repr, DecidableEq

/-- `wire::UninstallAck` (`%%<uninstall`). -/
structure UninstallAck where
  priority : Nat
  name : Str
  success : Bool
deriving Repr, DecidableEq

/-- `wire::WatchAck` (`%%<watch`). -/
structure WatchAck where
  name : Str
  success : Bool
deriving Repr, DecidableEq

/-- `wire::UnwatchAck` (`%%<unwatch`). -/
structure UnwatchAck where
  name : Str
  success : Bool
deriving Repr, DecidableEq

/-- `wire::SetLocalAck` (`%%<setlocal`). -/
structure SetLocalAck where
  name : Str
  value : Str
  success : Bool
deriving Repr, DecidableEq

/-- `wire::Message` (`%%>message`). -/
structure Message where
  id : Str
  time : Nat
  name : Str
  retvalue : Str
  kv : List (Str × Str)
deriving Repr, DecidableEq

/-- `wire::MessageAck` (`%%<message`). -/
structure MessageAck where
  id : Str
  processed : Bool
  name : Option Str
  retvalue : Str
  kv : List (Str × Str)
deriving Repr, DecidableEq

/-- `wire::QuitAck` (`%%<quit`, no payload). -/
structure QuitAck where
deriving Repr, DecidableEq

/-- `wire::ErrorIn` (`Error in`). -/
structure ErrorIn where
  original : Str
deriving Repr, DecidableEq

/-- Schema of `Install`. -/
def installShape : Shape :=
  .sstruct (some (strOf "%%>install"))
    [(.sopt .snat, false), (.sstr, false),
     (.sopt (.sstruct none [(.sstr, false), (.sopt .sstr, false)]), true)]

/-- Schema of `InstallAck`. -/
def installAckShape : Shape :=
  .sstruct (some (strOf "%%<install")) [(.snat, false), (.sstr, false), (.sbool, false)]

/-- Schema of `UninstallAck`. -/
def uninstallAckShape : Shape :=
  .sstruct (some (strOf "%%<uninstall")) [(.snat, false), (.sstr, false), (.sbool, false)]

/-- Schema of `WatchAck`. -/
def watchAckShape : Shape :=
  .sstruct (some (strOf "%%<watch")) [(.sstr, false), (.sbool, false)]

/-- Schema of `UnwatchAck`. -/
def unwatchAckShape : Shape :=
  .sstruct (some (strOf "%%<unwatch")) [(.sstr, false), (.sbool, false)]

/-- Schema of `SetLocalAck`. -/
def setLocalAckShape : Shape :=
  .sstruct (some (strOf "%%<setlocal")) [(.sstr, false), (.sstr, false), (.sbool, false)]

/-- Schema of `Message`. -/
def messageShape : Shape :=
  .sstruct (some (strOf "%%>message"))
    [(.sstr, false), (.snat, false), (.sstr, false), (.sstr, false), (.smap, false)]

/-- Schema of `MessageAck`. -/
def messageAckShape : Shape :=
  .sstruct (some (strOf "%%<message"))
    [(.sstr, false), (.sbool, false), (.sopt .sstr, false), (.sstr, false), (.smap, false)]

/-- Schema of `QuitAck`. -/
def quitAckShape : Shape := .sstruct (some (strOf "%%<quit")) []

/-- Schema of `ErrorIn`. -/
def errorInShape : Shape := .sstruct (some (strOf "Error in")) [(.sstr, false)]

/-! ### Materializing wrappers (`wire::from_str::<T>`) -/

/-- `wire::from_str::<Install>`. -/
def parseInstall (s : Str) : Except DError Install :=
  match fromStrS installShape s with
  | .ok (.vstruct [.vnone, .vstr n, .vnone]) => .ok ⟨none, n, none⟩
  | .ok (.vstruct [.vsome (.vnat p), .vstr n, .vnone]) => .ok ⟨some p, n, none⟩
  | .ok (.vstruct [.vnone, .vstr n, .vsome (.vstruct [.vstr k, .vnone])]) =>
      .ok ⟨none, n, some (k, none)⟩
  | .ok (.vstruct [.vsome (.vnat p), .vstr n, .vsome (.vstruct [.vstr k, .vnone])]) =>
      .ok ⟨some p, n, some (k, none)⟩
  | .ok (.vstruct [.vnone, .vstr n, .vsome (.vstruct [.vstr k, .vsome (.vstr v)])]) =>
      .ok ⟨none, n, some (k, some v)⟩
  | .ok (.vstruct [.vsome (.vnat p), .vstr n, .vsome (.vstruct [.vstr k, .vsome (.vstr v)])]) =>
      .ok ⟨some p, n, some (k, some v)⟩
  | .ok _ => .error .reflect
  | .error e => .error e

/-- `wire::from_str::<InstallAck>`. -/
def parseInstallAck (s : Str) : Except DError InstallAck :=
  match fromStrS installAckShape s with
  | .ok (.vstruct [.vnat p, .vstr n, .vbool b]) => .ok ⟨p, n, b⟩
  | .ok _ => .error .reflect
  | .error e => .error e

/-- `wire::from_str::<UninstallAck>`. -/
def parseUninstallAck (s : Str) : Except DError UninstallAck :=
  match fromStrS uninstallAckShape s with
  | .ok (.vstruct [.vnat p, .vstr n, .vbool b]) => .ok ⟨p, n, b⟩
  | .ok _ => .error .reflect
  | .error e => .error e

/-- `wire::from_str::<WatchAck>`. -/
def parseWatchAck (s : Str) : Except DError WatchAck :=
  match fromStrS watchAckShape s with
  | .ok (.vstruct [.vstr n, .vbool b]) => .ok ⟨n, b⟩
  | .ok _ => .error .reflect
  | .error e => .error e

/-- `wire::from_str::<UnwatchAck>`. -/
def parseUnwatchAck (s : Str) : Except DError UnwatchAck :=
  match fromStrS unwatchAckShape s with
  | .ok (.vstruct [.vstr n, .vbool b]) => .ok ⟨n, b⟩
  | .ok _ => .error .reflect
  | .error e => .error e

/-- `wire::from_str::<SetLocalAck>`. -/
def parseSetLocalAck (s : Str) : Except DError SetLocalAck :=
  match fromStrS setLocalAckShape s with
  | .ok (.vstruct [.vstr n, .vstr v, .vbool b]) => .ok ⟨n, v, b⟩
  | .ok _ => .error .reflect
  | .error e => .error e

/-- `wire::from_str::<Message>`. -/
def parseMessage (s : Str) : Except DError Message :=
  match fromStrS messageShape s with
  | .ok (.vstruct [.vstr i, .vnat t, .vstr n, .vstr r, .vmap es]) =>
      .ok ⟨i, t, n, r, mkKv es⟩
  | .ok _ => .error .reflect
  | .error e => .error e

/-- `wire::from_str::<MessageAck>`. -/
def parseMessageAck (s : Str) : Except DError MessageAck :=
  match fromStrS messageAckShape s with
  | .ok (.vstruct [.vstr i, .vbool p, .vnone, .vstr r, .vmap es]) =>
      .ok ⟨i, p, none, r, mkKv es⟩
  | .ok (.vstruct [.vstr i, .vbool p, .vsome (.vstr n), .vstr r, .vmap es]) =>
      .ok ⟨i, p, some n, r, mkKv es⟩
  | .ok _ => .error .reflect
  | .error e => .error e

/-- `wire::from_str::<QuitAck>`. -/
def parseQuitAck (s : Str) : Except DError QuitAck :=
  match fromStrS quitAckShape s with
  | .ok (.vstruct []) => .ok ⟨⟩
  | .ok _ => .error .reflect
  | .error e => .error e

/-- `wire::from_str::<ErrorIn>`. -/
def parseErrorIn (s : Str) : Except DError ErrorIn :=
  match fromStrS errorInShape s with
  | .ok (.vstruct [.vstr o]) => .ok ⟨o⟩
  | .ok _ => .error .reflect
  | .error e => .error e

/-! ### Serializing wrappers (`wire::to_string`) -/

/-- The `Peek` view of an `Install`. -/
def Install.toValue (r : Install) : DValue :=
  .vstruct [
    match r.priority with
    | none => .vnone
    | some p => .vsome (.vnat p),
    .vstr r.name,
    match r.filter with
    | none => .vnone
    | some (k, none) => .vsome (.vstruct [.vstr k, .vnone])
    | some (k, some v) => .vsome (.vstruct [.vstr k, .vsome (.vstr v)])]

/-- The `Peek` view of a `Message`. -/
def Message.toValue (m : Message) : DValue :=
  .vstruct [.vstr m.id, .vnat m.time, .vstr m.name, .vstr m.retvalue, .vmap m.kv]

/-- The `Peek` view of a `MessageAck`. -/
def MessageAck.toValue (m : MessageAck) : DValue :=
  .vstruct [.vstr m.id, .vbool m.processed,
    match m.name with
    | none => .vnone
    | some n => .vsome (.vstr n),
    .vstr m.retvalue, .vmap m.kv]

/-- `wire::to_string::<Install>`. -/
def serializeInstall (r : Install) : Str := toStrS installShape r.toValue

/-- `wire::to_string::<Message>`. -/
def serializeMessage (m : Message) : Str := toStrS messageShape m.toValue

/-- `wire::to_string::<MessageAck>`. -/
def serializeMessageAck (m : MessageAck) : Str := toStrS messageAckShape m.toValue

/-! ## Topic classifier (`src/engine/topic.rs`) -/

/-- The `Topic` variants of `src/engine/topic.rs`. -/
inductive Topic where
  | installAck (name : Str)
  | uninstallAck (name : Str)
  | watchAck (name : Str)
  | unwatchAck (name : Str)
  | watch
  | setLocalAck (name : Str)
  | message
  | messageAck (id : Str)
  | quitAck
  | other
deriving Repr, DecidableEq

/-- `Topic::topic` from `src/engine/topic.rs`: the `if let Ok … else if`
chain over the eight tag-prefixed parses, falling through to `Other`. -/
def topicOf (s : Str) : Topic :=
  match parseInstallAck s with
  | .ok m => .installAck m.name
  | .error _ =>
  match parseUninstallAck s with
  | .ok m => .uninstallAck m.name
  | .error _ =>
  match parseWatchAck s with
  | .ok m => .watchAck m.name
  | .error _ =>
  match parseUnwatchAck s with
  | .ok m => .unwatchAck m.name
  | .error _ =>
  match parseSetLocalAck s with
  | .ok m => .setLocalAck m.name
  | .error _ =>
  match parseMessage s with
  | .ok _ => .message
  | .error _ =>
  match parseMessageAck s with
  | .ok m => .messageAck m.id
  | .error _ =>
  match parseQuitAck s with
  | .ok _ => .quitAck
  | .error _ => .other

/-- `Topic::fallback` from `src/engine/topic.rs`: an unhandled `MessageAck`
is re-routed as `Watch`; every other topic is unchanged. -/
def Topic.fallback : Topic → Topic
  | .messageAck _ => .watch
  | t => t

/-- Did a parse succeed?  (The boolean of Rust's `if let Ok(…)`.) -/
def exOk {α : Type} (x : Except DError α) : Bool :=
  match x with
  | .ok _ => true
  | .error _ => false

/-! ## Engine façade: default-response path (`src/engine/mod.rs`) -/

/-- The observable outcome of `Engine::default_response`. -/
inductive DefaultAction where
  | reply (ack : MessageAck)
  | logError (original : Str)
  | dropFrame
deriving Repr, DecidableEq

/-- `Engine::default_response` from `src/engine/mod.rs`: a frame parsing as
`Message` is answered with a `MessageAck { id, processed: false, name: None,
retvalue, kv }`; a frame parsing as `ErrorIn` is logged with its original
line and not answered; anything else is logged and dropped. -/
def defaultResponse (recvd : Str) : DefaultAction :=
  match parseMessage recvd with
  | .ok m => .reply ⟨m.id, false, none, m.retvalue, m.kv⟩
  | .error _ =>
      match parseErrorIn recvd with
      | .ok e => .logError e.original
      | .error _ => .dropFrame

/-! ## Module harness: the message loop of `Engine::attach` -/

/-- `Engine::ack` from `src/engine/mod.rs`: the acknowledgement built from
the original message and the processed flag. -/
def ackOf (original : Message) (processed : Bool) : MessageAck :=
  ⟨original.id, processed, some original.name, original.retvalue, original.kv⟩

/-- The observable outcome of one iteration of `attach`'s message loop. -/
structure LoopStep where
  /-- The acknowledgement sent via `Engine::ack`, if any. -/
  ackSent : Option MessageAck
  /-- Whether the `Request` was dropped while still owning its message
  (which fires `Request::drop`'s error diagnostic). -/
  droppedUnacked : Bool
  /-- The error the loop fails with, if any. -/
  failure : Option Unit
deriving Repr, DecidableEq

/-- One iteration of the message loop in `Engine::attach`
(`src/engine/mod.rs`): `let processed = module.on_message(…).await?;
Ok(self.ack(req, processed).await?)`.  On `Ok(processed)` the request is
consumed by `ack`; on `Err` the `?` drops the still-owned `Request` and
fails the loop. -/
def attachStep (onMessage : Message → Except Unit Bool) (msg : Message) : LoopStep :=
  match onMessage msg with
  | .ok processed => ⟨some (ackOf msg processed), false, none⟩
  | .error e => ⟨none, true, some e⟩

/-! ## Subscriber hub (`src/subable/mod.rs`, `src/subable/sub.rs`)

The `wakers` map of `Subscriber` is keyed by topic; its state is modelled
by its key list. -/

/-- The key set of the `wakers` map. -/
abbrev SubState := List Topic

/-- `Subscriber::subscribe`: insert a fresh slot, panicking (modelled as
`none`) when the topic already holds one. -/
def subscribe (t : Topic) (s : SubState) : Option SubState :=
  if t ∈ s then none else some (t :: s)

/-- `Sub::drop`: remove the subscription's slot from the map. -/
def dropSub (t : Topic) (s : SubState) : SubState := s.erase t

/-- The states the `wakers` map can reach from empty through successful
`subscribe`s and `Sub` drops. -/
inductive Reachable : SubState → Prop
  | init : Reachable []
  | sub {s t s'} : Reachable s → subscribe t s = some s' → Reachable s'
  | drop {s} (t : Topic) : Reachable s → Reachable (dropSub t s)

/-! ## Fan-out dispatch (spec §4.5)

Modelled from the spec: the dispatch loop of the current `subable` crate is
absent from `src/` (`src/subable/sub.rs` is a stale generation that never
consults `Topic::fallback`, while `src/engine/mod.rs` drives the current
`Item::Subscribed`/`Item::Unhandled` interface).  The step follows spec
§4.5: classify, apply `Topic::fallback` (from `src/engine/topic.rs`) when
the classified topic is registered nowhere, then deliver a `Match` to the
owning subscriber, wake a differently-topiced subscriber, or hand the frame
to the polling subscription as `NoMatch`. -/

/-- The outcome of one dispatch step for the polling subscription. -/
inductive Dispatch where
  | matched (frame : Str)
  | nomatch (frame : Str)
  | wokeOther (t : Topic)
deriving Repr, DecidableEq

/-- Is a subscriber slot registered for `t`? -/
def registered (wakers : SubState) (t : Topic) : Bool := wakers.contains t

/-- One dispatch step, seen from the subscription polling with topic
`self`: steps 2–5 of spec §4.5. -/
def dispatchStep (wakers : SubState) (self : Topic) (frame : Str) : Dispatch :=
  let t0 := topicOf frame
  let t := if registered wakers t0 then t0 else t0.fallback
  if t = self then .matched frame
  else if registered wakers t then .wokeOther t
  else .nomatch frame

/-- Does a string consist only of characters `encode` passes through
unchanged (no control, `%`, `:` or `DEL`)? -/
def plainB (s : Str) : Bool := s.all fun c => !isEncodable c

/-- Is `k` strictly below the first key of the association list? -/
def keyLtHead (k : Str) : List (Str × Str) → Bool
  | [] => true
  | b :: _ => strLtB k b.1

/-- Are the keys of an association list strictly increasing? -/
def keysSorted : List (Str × Str) → Bool
  | [] => true
  | a :: rest => keyLtHead a.1 rest && keysSorted rest

/-! # Theorems -/

/-! ## Escape codec lemmas -/

/-- Membership implies `List.contains` on the code-point model. -/
theorem contains_of_mem (s : Str) (c : Nat) (h : c ∈ s) : s.contains c = true := by
  induction s with
  | nil => cases h
  | cons a rest ih =>
      simp only [List.contains_cons, Bool.or_eq_true]
      rcases List.mem_cons.mp h with h | h
      · exact Or.inl (beq_iff_eq.mpr h)
      · exact Or.inr (ih h)

/-- When the input has no `%`, the decode loop returns it unchanged. -/
theorem decodeLoop_no_pct (s : Str) (h : (37 : Nat) ∉ s) :
    decodeLoop s false = some s := by
  induction s with
  | nil => rfl
  | cons c rest ih =>
      have hc : c ≠ 37 := fun hc => h (by simp [hc])
      have hr : (37 : Nat) ∉ rest := fun hr => h (List.mem_cons_of_mem _ hr)
      simp [decodeLoop, hc, ih hr]

/-- `decode` always agrees with its decoding loop started on a clear flag. -/
theorem decode_eq_decodeLoop (s : Str) : decode s = decodeLoop s false := by
  unfold decode
  split
  · next h =>
      have hm : (37 : Nat) ∉ s := fun hmem => h (contains_of_mem s 37 hmem)
      exact (decodeLoop_no_pct s hm).symm
  · rfl

/-- Expanding no character leaves the string unchanged. -/
theorem flatMap_id_of_plain (s : Str) (hall : ∀ c ∈ s, isEncodable c = false) :
    s.flatMap (fun c => if isEncodable c then [37, upencode c] else [c]) = s := by
  induction s with
  | nil => rfl
  | cons c rest ih =>
      rw [List.flatMap_cons, if_neg (by simp [hall c (by simp)]),
        ih fun d hd => hall d (List.mem_cons_of_mem _ hd)]
      rfl

/-- `encode` always agrees with its character-wise expansion. -/
theorem encode_eq_flatMap (s : Str) :
    encode s = s.flatMap (fun c => if isEncodable c then [37, upencode c] else [c]) := by
  unfold encode
  split
  · next h =>
      have hall : ∀ c ∈ s, isEncodable c = false := by
        intro c hc
        by_contra hne
        have hmem : c ∈ s.filter (fun c => isEncodable c) :=
          List.mem_filter.mpr ⟨hc, by simpa using hne⟩
        have := List.length_pos.mpr (List.ne_nil_of_mem hmem)
        omega
      exact (flatMap_id_of_plain s hall).symm
  · rfl

/-- Decoding inverts encoding character-wise, except at `DEL` (127), whose
escape (code 191) is outside the decodable `64..=127` range. -/
theorem updecode_upencode (c : Nat) (henc : isEncodable c = true) (hdel : c ≠ 127) :
    updecode (upencode c) = some c := by
  simp only [isEncodable, Bool.or_eq_true, decide_eq_true_eq, beq_iff_eq] at henc
  rcases henc with (h | h) | h | h
  · have hc37 : c ≠ 37 := by omega
    have he : upencode c = c + 64 := by
      unfold upencode
      rw [if_neg hc37]
      omega
    rw [he]
    unfold updecode
    rw [if_neg (by omega), if_pos ⟨by omega, by omega⟩]
    have : c + 64 - 64 = c := by omega
    rw [this]
  · exact absurd h hdel
  · subst h; decide
  · subst h; decide

/-- The decode loop inverts the character-wise encoding on every string free
of `DEL`. -/
theorem decodeLoop_encode (s : Str) (h : ∀ c ∈ s, c ≠ 127) :
    decodeLoop (s.flatMap (fun c => if isEncodable c then [37, upencode c] else [c]))
      false = some s := by
  induction s with
  | nil => rfl
  | cons c rest ih =>
      have hih := ih fun d hd => h d (List.mem_cons_of_mem _ hd)
      rw [List.flatMap_cons]
      by_cases henc : isEncodable c = true
      · have hdec := updecode_upencode c henc (h c (by simp))
        rw [if_pos henc]
        simp only [List.cons_append, List.nil_append, decodeLoop, if_pos rfl, hdec]
        simp [hih]
      · have hc : c ≠ 37 := by
          intro hc
          subst hc
          simp [isEncodable] at henc
        rw [if_neg henc]
        simp only [List.cons_append, List.nil_append, decodeLoop, if_neg hc]
        simp [hih]

/-- C1 (amended). Escape round-trips: for every string over the
printable-plus-control alphabet with `DEL` (127) excluded,
`decode(encode(s)) = s`; and for every *canonically* escaped string — one in
the image of `encode` — re-encoding the decode result gives the string back.
(On arbitrary decode-accepted strings the second half fails, see the
counterexample: `decode` also accepts non-canonical escapes such as `%a`.) -/
theorem upcode_roundtrip_amended (s : Str) (h : ∀ c ∈ s, c ≠ 127) :
    decode (encode s) = some s ∧ (decode (encode s)).map encode = some (encode s) := by
  have h1 : decode (encode s) = some s := by
    rw [decode_eq_decodeLoop, encode_eq_flatMap]
    exact decodeLoop_encode s h
  exact ⟨h1, by rw [h1]; rfl⟩

/-- Witness for C1 at the concrete string `"a:b%"` (codes `[97,58,98,37]`). -/
theorem upcode_roundtrip_amended_witness :
    decode (encode [97, 58, 98, 37]) = some [97, 58, 98, 37] ∧
    (decode (encode [97, 58, 98, 37])).map encode = some (encode [97, 58, 98, 37]) :=
  upcode_roundtrip_amended [97, 58, 98, 37] (by decide)

/-- C1 counterexample.  The claim as stated fails twice: `DEL` (127) is a
control character whose encoding does not decode back, and the validly
escaped string `"%a"` (codes `[37,97]`) decodes to `"!"` (code 33), which
re-encodes to `"!"`, not `"%a"`. -/
theorem upcode_roundtrip_cex :
    decode (encode [127]) = none ∧
    (decode [37, 97]).map encode = some [33] ∧ ([33] : Str) ≠ [37, 97] :=
  ⟨by rfl, by rfl, by decide⟩

/-! ## C10: trailing `%` is silently dropped -/

/-- Appending `%` to a string that ends outside an escape sequence does not
change what the decode loop returns: the trailing `%` sets the `decoding`
flag, and the loop then ends, dropping it. -/
theorem decodeLoop_append_pct (s : Str) (b : Bool) (h : escState s b = false) :
    decodeLoop (s ++ [37]) b = decodeLoop s b := by
  induction s generalizing b with
  | nil =>
      cases b with
      | false => rfl
      | true => simp [escState] at h
  | cons c rest ih =>
      cases b with
      | true =>
          simp only [escState] at h
          simp only [List.cons_append, decodeLoop]
          cases hu : updecode c with
          | some d =>
              simp only [List.append_eq]
              rw [ih false h]
          | none => rfl
      | false =>
          by_cases hc : c = 37
          · subst hc
            simp only [escState, if_pos rfl] at h
            simp only [List.cons_append, decodeLoop, if_pos rfl]
            exact ih true h
          · simp only [escState, if_neg hc] at h
            simp only [List.cons_append, decodeLoop, if_neg hc, List.append_eq]
            rw [ih false h]

/-- C10. A single unpaired trailing `%` — appended to a string whose escape
sequences are all complete — is silently dropped: `decode` still succeeds
and returns the same output, rather than reporting a decode error. -/
theorem decode_trailing_pct (s t : Str) (hesc : escState s false = false)
    (hok : decode s = some t) : decode (s ++ [37]) = some t := by
  rw [decode_eq_decodeLoop] at hok ⊢
  rw [decodeLoop_append_pct s false hesc]
  exact hok

/-- Witness for C10: `decode("abc%") = "abc"` (codes `[97,98,99]`). -/
theorem decode_trailing_pct_witness :
    decode ([97, 98, 99] ++ [37]) = some [97, 98, 99] :=
  decode_trailing_pct [97, 98, 99] [97, 98, 99] (by decide) (by rfl)

/-! ## C2: classifier priority order -/

/-- A failed `if let Ok` means the parse returned some error. -/
theorem exOk_false {α : Type} {x : Except DError α} (h : exOk x = false) :
    ∃ e, x = .error e := by
  cases x with
  | ok a => simp [exOk] at h
  | error e => exact ⟨e, rfl⟩

/-- C2. The classifier attempts the eight tag-prefixed parses in priority
order InstallAck, UninstallAck, WatchAck, UnwatchAck, SetLocalAck, Message,
MessageAck, QuitAck; the first success determines the topic and carries the
record's correlation field (`name`, or `id` for `MessageAck`); if all eight
fail the topic is `Other`. -/
theorem topic_priority_chain (s : Str) :
    (∀ m, parseInstallAck s = .ok m → topicOf s = .installAck m.name)
    ∧ (exOk (parseInstallAck s) = false →
        ∀ m, parseUninstallAck s = .ok m → topicOf s = .uninstallAck m.name)
    ∧ (exOk (parseInstallAck s) = false → exOk (parseUninstallAck s) = false →
        ∀ m, parseWatchAck s = .ok m → topicOf s = .watchAck m.name)
    ∧ (exOk (parseInstallAck s) = false → exOk (parseUninstallAck s) = false →
        exOk (parseWatchAck s) = false →
        ∀ m, parseUnwatchAck s = .ok m → topicOf s = .unwatchAck m.name)
    ∧ (exOk (parseInstallAck s) = false → exOk (parseUninstallAck s) = false →
        exOk (parseWatchAck s) = false → exOk (parseUnwatchAck s) = false →
        ∀ m, parseSetLocalAck s = .ok m → topicOf s = .setLocalAck m.name)
    ∧ (exOk (parseInstallAck s) = false → exOk (parseUninstallAck s) = false →
        exOk (parseWatchAck s) = false → exOk (parseUnwatchAck s) = false →
        exOk (parseSetLocalAck s) = false →
        ∀ m, parseMessage s = .ok m → topicOf s = .message)
    ∧ (exOk (parseInstallAck s) = false → exOk (parseUninstallAck s) = false →
        exOk (parseWatchAck s) = false → exOk (parseUnwatchAck s) = false →
        exOk (parseSetLocalAck s) = false → exOk (parseMessage s) = false →
        ∀ m, parseMessageAck s = .ok m → topicOf s = .messageAck m.id)
    ∧ (exOk (parseInstallAck s) = false → exOk (parseUninstallAck s) = false →
        exOk (parseWatchAck s) = false → exOk (parseUnwatchAck s) = false →
        exOk (parseSetLocalAck s) = false → exOk (parseMessage s) = false →
        exOk (parseMessageAck s) = false →
        ∀ m, parseQuitAck s = .ok m → topicOf s = .quitAck)
    ∧ (exOk (parseInstallAck s) = false → exOk (parseUninstallAck s) = false →
        exOk (parseWatchAck s) = false → exOk (parseUnwatchAck s) = false →
        exOk (parseSetLocalAck s) = false → exOk (parseMessage s) = false →
        exOk (parseMessageAck s) = false → exOk (parseQuitAck s) = false →
        topicOf s = .other) := by
  refine ⟨?_, ?_, ?_, ?_, ?_, ?_, ?_, ?_, ?_⟩
  · intro m hm
    simp only [topicOf, hm]
  · intro h1 m hm
    obtain ⟨e1, he1⟩ := exOk_false h1
    simp only [topicOf, he1, hm]
  · intro h1 h2 m hm
    obtain ⟨e1, he1⟩ := exOk_false h1
    obtain ⟨e2, he2⟩ := exOk_false h2
    simp only [topicOf, he1, he2, hm]
  · intro h1 h2 h3 m hm
    obtain ⟨e1, he1⟩ := exOk_false h1
    obtain ⟨e2, he2⟩ := exOk_false h2
    obtain ⟨e3, he3⟩ := exOk_false h3
    simp only [topicOf, he1, he2, he3, hm]
  · intro h1 h2 h3 h4 m hm
    obtain ⟨e1, he1⟩ := exOk_false h1
    obtain ⟨e2, he2⟩ := exOk_false h2
    obtain ⟨e3, he3⟩ := exOk_false h3
    obtain ⟨e4, he4⟩ := exOk_false h4
    simp only [topicOf, he1, he2, he3, he4, hm]
  · intro h1 h2 h3 h4 h5 m hm
    obtain ⟨e1, he1⟩ := exOk_false h1
    obtain ⟨e2, he2⟩ := exOk_false h2
    obtain ⟨e3, he3⟩ := exOk_false h3
    obtain ⟨e4, he4⟩ := exOk_false h4
    obtain ⟨e5, he5⟩ := exOk_false h5
    simp only [topicOf, he1, he2, he3, he4, he5, hm]
  · intro h1 h2 h3 h4 h5 h6 m hm
    obtain ⟨e1, he1⟩ := exOk_false h1
    obtain ⟨e2, he2⟩ := exOk_false h2
    obtain ⟨e3, he3⟩ := exOk_false h3
    obtain ⟨e4, he4⟩ := exOk_false h4
    obtain ⟨e5, he5⟩ := exOk_false h5
    obtain ⟨e6, he6⟩ := exOk_false h6
    simp only [topicOf, he1, he2, he3, he4, he5, he6, hm]
  · intro h1 h2 h3 h4 h5 h6 h7 m hm
    obtain ⟨e1, he1⟩ := exOk_false h1
    obtain ⟨e2, he2⟩ := exOk_false h2
    obtain ⟨e3, he3⟩ := exOk_false h3
    obtain ⟨e4, he4⟩ := exOk_false h4
    obtain ⟨e5, he5⟩ := exOk_false h5
    obtain ⟨e6, he6⟩ := exOk_false h6
    obtain ⟨e7, he7⟩ := exOk_false h7
    simp only [topicOf, he1, he2, he3, he4, he5, he6, he7, hm]
  · intro h1 h2 h3 h4 h5 h6 h7 h8
    obtain ⟨e1, he1⟩ := exOk_false h1
    obtain ⟨e2, he2⟩ := exOk_false h2
    obtain ⟨e3, he3⟩ := exOk_false h3
    obtain ⟨e4, he4⟩ := exOk_false h4
    obtain ⟨e5, he5⟩ := exOk_false h5
    obtain ⟨e6, he6⟩ := exOk_false h6
    obtain ⟨e7, he7⟩ := exOk_false h7
    obtain ⟨e8, he8⟩ := exOk_false h8
    simp only [topicOf, he1, he2, he3, he4, he5, he6, he7, he8]

/-- Witness for C2: the fixture `%%<install:100:engine.timer:true`
classifies as `InstallAck("engine.timer")`. -/
theorem topic_priority_chain_witness :
    topicOf (strOf "%%<install:100:engine.timer:true") =
      .installAck (strOf "engine.timer") :=
  (topic_priority_chain (strOf "%%<install:100:engine.timer:true")).1
    ⟨100, strOf "engine.timer", true⟩ (by rfl)

/-! ## C4: default-response path -/

/-- C4. On a `NoMatch` frame, `default_response` answers a parseable
`Message` with a `MessageAck` echoing its id, retvalue and map, with
`processed = false` and `name = None`; a frame parsing as `ErrorIn` (and
not as `Message`) is logged with its original line and answered with
nothing; any other frame is logged and dropped with no reply. -/
theorem default_response_cases (s : Str) :
    (∀ m, parseMessage s = .ok m →
        defaultResponse s = .reply ⟨m.id, false, none, m.retvalue, m.kv⟩)
    ∧ (exOk (parseMessage s) = false → ∀ e, parseErrorIn s = .ok e →
        defaultResponse s = .logError e.original)
    ∧ (exOk (parseMessage s) = false → exOk (parseErrorIn s) = false →
        defaultResponse s = .dropFrame) := by
  refine ⟨?_, ?_, ?_⟩
  · intro m hm
    simp only [defaultResponse, hm]
  · intro h1 e he
    obtain ⟨e1, he1⟩ := exOk_false h1
    simp only [defaultResponse, he1, he]
  · intro h1 h2
    obtain ⟨e1, he1⟩ := exOk_false h1
    obtain ⟨e2, he2⟩ := exOk_false h2
    simp only [defaultResponse, he1, he2]

/-- Witness for C4: the unsolicited dispatch `%%>message:abc:1:call.route:`
is echoed as a `MessageAck` with `processed = false` and `name = None`. -/
theorem default_response_cases_witness :
    defaultResponse (strOf "%%>message:abc:1:call.route:") =
      .reply ⟨strOf "abc", false, none, [], []⟩ :=
  (default_response_cases (strOf "%%>message:abc:1:call.route:")).1
    ⟨strOf "abc", 1, strOf "call.route", [], []⟩ (by rfl)

/-! ## C5: the message loop's acknowledgement behaviour -/

/-- C5 evaluation.  In `attach`'s message loop, a Request whose
`on_message` returns `Ok(processed)` is ack'd with that flag — but a
Request whose `on_message` returns `Err` is **not** ack'd: the `?` operator
drops the still-owned `Request` (firing `Request::drop`'s
"was not ack'ed" error diagnostic) and fails the loop, contradicting the
claim and `attach`'s own documentation ("ensure they are always
acknowledged"). -/
theorem attach_error_drops_unacked :
    attachStep (fun _ => .ok true) ⟨strOf "abc", 1, strOf "call.route", [], []⟩ =
      ⟨some (ackOf ⟨strOf "abc", 1, strOf "call.route", [], []⟩ true), false, none⟩
    ∧ attachStep (fun _ => .error ()) ⟨strOf "abc", 1, strOf "call.route", [], []⟩ =
      ⟨none, true, some ()⟩ := by
  constructor <;> rfl

/-! ## C9: single-slot invariant of the subscriber hub -/

/-- C9. Every `wakers` state reachable through `subscribe` / `Sub::drop`
holds at most one slot per topic; `subscribe` panics (returns `none`) on a
topic that already holds a slot; and dropping a subscription removes its
slot from the map. -/
theorem single_slot_invariant (s : SubState) (h : Reachable s) :
    s.Nodup ∧ (∀ t, t ∈ s → subscribe t s = none) ∧ (∀ t, t ∉ dropSub t s) := by
  have hnd : s.Nodup := by
    induction h with
    | init => exact List.nodup_nil
    | sub hr hs ih =>
        rename_i s t s'
        unfold subscribe at hs
        split at hs
        · cases hs
        · next hmem =>
            cases hs
            exact List.Nodup.cons hmem ih
    | drop t hr ih => exact ih.erase t
  refine ⟨hnd, ?_, ?_⟩
  · intro t ht
    unfold subscribe
    rw [if_pos ht]
  · intro t hmem
    exact (List.Nodup.mem_erase_iff hnd).mp hmem |>.1 rfl

/-- Witness for C9 at the reachable one-slot state `[Watch]`: subscribing
`Watch` again is diagnosed. -/
theorem single_slot_invariant_witness :
    subscribe Topic.watch [Topic.watch] = none :=
  (single_slot_invariant [Topic.watch] (Reachable.sub Reachable.init rfl)).2.1
    Topic.watch (List.mem_singleton.mpr rfl)

/-! ## C3: fallback delivery of unmatched `MessageAck` frames -/

/-- C3. A frame classified `MessageAck(id)` with no subscriber slot for
that id is re-routed under `Watch` by `Topic::fallback`: a registered
`Watch` subscriber receives it as a `Match` (any other poller wakes the
watch subscriber and stays pending); with no `Watch` subscriber, any
polling subscription receives it as a `NoMatch` delivery. -/
theorem fallback_delivery (wakers : SubState) (frame : Str) (id : Str)
    (hcls : topicOf frame = .messageAck id)
    (hnsub : registered wakers (.messageAck id) = false) :
    (registered wakers .watch = true →
        dispatchStep wakers .watch frame = .matched frame ∧
        ∀ self, self ≠ .watch → dispatchStep wakers self frame = .wokeOther .watch)
    ∧ (registered wakers .watch = false →
        ∀ self, registered wakers self = true →
          dispatchStep wakers self frame = .nomatch frame) := by
  have heff : ∀ self, dispatchStep wakers self frame =
      (if Topic.watch = self then Dispatch.matched frame
       else if registered wakers .watch then .wokeOther .watch
       else .nomatch frame) := by
    intro self
    simp only [dispatchStep, hcls, hnsub, Bool.false_eq_true, if_false, Topic.fallback]
  constructor
  · intro hw
    constructor
    · rw [heff .watch, if_pos rfl]
    · intro self hne
      rw [heff self, if_neg (fun hh => hne hh.symm), if_pos hw]
  · intro hw self hself
    have hne : Topic.watch ≠ self := by
      intro hh
      rw [← hh] at hself
      rw [hself] at hw
      cases hw
    rw [heff self, if_neg hne, if_neg (by simp [hw])]

/-- Witness for C3: with only a `Message` subscriber registered, the watch
delivery `%%<message:xyz:false:n:` (no awaited id `xyz`) reaches the
polling subscription as `NoMatch`. -/
theorem fallback_delivery_witness :
    dispatchStep [Topic.message] Topic.message (strOf "%%<message:xyz:false:n:") =
      .nomatch (strOf "%%<message:xyz:false:n:") :=
  (fallback_delivery [Topic.message] (strOf "%%<message:xyz:false:n:")
      (strOf "xyz") (by rfl) (by rfl)).2 (by rfl) Topic.message (by rfl)

/-! ## C6: tag errors -/

/-- Splitting never yields an empty segment list (Rust `str::split` yields
at least one item). -/
theorem splitColon_ne_nil (s : Str) : splitColon s ≠ [] := by
  cases s with
  | nil => simp [splitColon]
  | cons c rest =>
      unfold splitColon
      split
      · simp
      · split <;> simp

/-- C6 (amended).  For every record type with a declared tag, deserializing
a frame whose first colon-separated segment differs from the tag returns
`MismatchedTag`.  The empty input also returns `MismatchedTag` — not
`MissingTag` — because splitting the empty string yields one empty segment,
which is consumed as the (mismatching) tag. -/
theorem tag_errors_amended :
    (∀ (tag : Str) (fields : List (Shape × Bool)) (input first : Str)
        (rest : List Str), splitColon input = first :: rest → first ≠ tag →
        fromStrS (.sstruct (some tag) fields) input = .error .mismatchedTag)
    ∧ ∀ (tag : Str) (fields : List (Shape × Bool)), tag ≠ [] →
        fromStrS (.sstruct (some tag) fields) [] = .error .mismatchedTag := by
  have main : ∀ (tag : Str) (fields : List (Shape × Bool)) (input first : Str)
      (rest : List Str), splitColon input = first :: rest → first ≠ tag →
      fromStrS (.sstruct (some tag) fields) input = .error .mismatchedTag := by
    intro tag fields input first rest hsplit hne
    unfold fromStrS
    rw [hsplit]
    unfold deserializeValue
    simp only [checkTag, if_neg hne]
    rfl
  refine ⟨main, ?_⟩
  intro tag fields htag
  exact main tag fields [] [] [] rfl (fun h => htag h.symm)

/-- Witness for C6: an `InstallAck` frame with the wrong tag, and the empty
input, both yield `MismatchedTag`. -/
theorem tag_errors_amended_witness :
    fromStrS installAckShape (strOf "BAD:1:n:true") = .error .mismatchedTag :=
  tag_errors_amended.1 (strOf "%%<install")
    [(.snat, false), (.sstr, false), (.sbool, false)] (strOf "BAD:1:n:true")
    (strOf "BAD") [strOf "1", strOf "n", strOf "true"] (by rfl) (by decide)

/-- C6 counterexample: deserializing the empty input returns
`MismatchedTag`, not the claimed `MissingTag`. -/
theorem tag_errors_cex :
    parseInstallAck [] = .error .mismatchedTag ∧
      DError.mismatchedTag ≠ DError.missingTag :=
  ⟨by rfl, by decide⟩

/-! ## C8: flattened-map serialization -/

/-- `strLtB` is total: two unequal strings are ordered one way or the
other. -/
theorem strLtB_total (a b : Str) (hlt : strLtB a b = false) (hne : a ≠ b) :
    strLtB b a = true := by
  induction a generalizing b with
  | nil =>
      cases b with
      | nil => exact absurd rfl hne
      | cons y ys => simp [strLtB] at hlt
  | cons x xs ih =>
      cases b with
      | nil => rfl
      | cons y ys =>
          unfold strLtB at hlt ⊢
          by_cases hxy : x < y
          · rw [if_pos hxy] at hlt
            cases hlt
          · rw [if_neg hxy] at hlt
            by_cases hyx : y < x
            · rw [if_pos hyx]
            · have hx : x = y := by omega
              subst hx
              rw [if_neg hyx] at hlt
              rw [if_neg hyx, if_neg hyx]
              exact ih ys hlt fun h => hne (by rw [h])

/-- Inserting a key below `x` (and into a list whose head is above `x`)
keeps the head above `x`. -/
theorem keyLtHead_mapInsert (x k v : Str) (l : List (Str × Str))
    (hxk : strLtB x k = true) (hl : keyLtHead x l = true) :
    keyLtHead x (mapInsert k v l) = true := by
  cases l with
  | nil => exact hxk
  | cons b rest =>
      unfold mapInsert
      by_cases h1 : strLtB k b.1 = true
      · rw [if_pos h1]
        exact hxk
      · rw [if_neg h1]
        by_cases h2 : k = b.1
        · rw [if_pos h2]
          exact hxk
        · rw [if_neg h2]
          exact hl

/-- `BTreeMap::insert` preserves key-sortedness. -/
theorem mapInsert_sorted (k v : Str) (l : List (Str × Str))
    (h : keysSorted l = true) : keysSorted (mapInsert k v l) = true := by
  induction l with
  | nil => rfl
  | cons b rest ih =>
      unfold keysSorted at h
      obtain ⟨hb, hrest⟩ := Bool.and_eq_true_iff.mp h
      unfold mapInsert
      by_cases h1 : strLtB k b.1 = true
      · rw [if_pos h1]
        unfold keysSorted
        rw [Bool.and_eq_true_iff]
        exact ⟨h1, h⟩
      · rw [if_neg h1]
        by_cases h2 : k = b.1
        · rw [if_pos h2]
          subst h2
          unfold keysSorted
          rw [Bool.and_eq_true_iff]
          exact ⟨hb, hrest⟩
        · rw [if_neg h2]
          unfold keysSorted
          rw [Bool.and_eq_true_iff]
          have hbk : strLtB b.1 k = true :=
            strLtB_total k b.1 (by simpa using h1) h2
          exact ⟨keyLtHead_mapInsert b.1 k v rest hbk hb, ih hrest⟩

/-- The map materialized by the deserializer (and any `BTreeMap` built by
repeated insertion) has its entries sorted by key. -/
theorem mkKv_sorted (entries : List (Str × Str)) : keysSorted (mkKv entries) = true := by
  unfold mkKv
  have main : ∀ (l : List (Str × Str)) (acc : List (Str × Str)),
      keysSorted acc = true →
      keysSorted (l.foldl (fun m e => mapInsert e.1 e.2 m) acc) = true := by
    intro l
    induction l with
    | nil => intro acc h; exact h
    | cons e rest ih =>
        intro acc h
        exact ih (mapInsert e.1 e.2 acc) (mapInsert_sorted e.1 e.2 acc h)
  exact main entries [] rfl

/-- C8. Serializing a `Message` or a `MessageAck` emits the flattened map
as the final segments of the frame, one `encode(key)=encode(value)` segment
per entry in map order — and the map order of a `BTreeMap` built by
insertion (`mkKv`, as the deserializer and the façade do) is sorted by
key. -/
theorem flattened_map_serialization :
    (∀ m : Message,
        serializeValue messageShape m.toValue false =
          [strOf "%%>message", encode m.id, encode (natToStr m.time),
            encode m.name, encode m.retvalue] ++
            m.kv.map (fun e => encode e.1 ++ 61 :: encode e.2) ∧
        serializeMessage m =
          joinColon ([strOf "%%>message", encode m.id, encode (natToStr m.time),
            encode m.name, encode m.retvalue] ++
            m.kv.map (fun e => encode e.1 ++ 61 :: encode e.2)))
    ∧ (∀ a : MessageAck,
        serializeValue messageAckShape a.toValue false =
          [strOf "%%<message", encode a.id, encode (boolToStr a.processed)] ++
            (match a.name with
             | none => [([] : Str)]
             | some n => [encode n]) ++
            [encode a.retvalue] ++
            a.kv.map (fun e => encode e.1 ++ 61 :: encode e.2) ∧
        serializeMessageAck a =
          joinColon ([strOf "%%<message", encode a.id, encode (boolToStr a.processed)] ++
            (match a.name with
             | none => [([] : Str)]
             | some n => [encode n]) ++
            [encode a.retvalue] ++
            a.kv.map (fun e => encode e.1 ++ 61 :: encode e.2)))
    ∧ (∀ entries, keysSorted (mkKv entries) = true) := by
  have hmsg : ∀ m : Message,
      serializeValue messageShape m.toValue false =
        [strOf "%%>message", encode m.id, encode (natToStr m.time),
          encode m.name, encode m.retvalue] ++
          m.kv.map (fun e => encode e.1 ++ 61 :: encode e.2) := by
    intro m
    simp [messageShape, Message.toValue, serializeValue, serializeFields]
  have hack : ∀ a : MessageAck,
      serializeValue messageAckShape a.toValue false =
        [strOf "%%<message", encode a.id, encode (boolToStr a.processed)] ++
          (match a.name with
           | none => [([] : Str)]
           | some n => [encode n]) ++
          [encode a.retvalue] ++
          a.kv.map (fun e => encode e.1 ++ 61 :: encode e.2) := by
    intro a
    cases hn : a.name with
    | none => simp [messageAckShape, MessageAck.toValue, serializeValue, serializeFields, hn]
    | some n => simp [messageAckShape, MessageAck.toValue, serializeValue, serializeFields, hn]
  refine ⟨fun m => ⟨hmsg m, ?_⟩, fun a => ⟨hack a, ?_⟩, mkKv_sorted⟩
  · rw [serializeMessage, toStrS, hmsg m]
  · rw [serializeMessageAck, toStrS, hack a]

/-! ## C7: default truncation -/

/-- A colon-free string splits as a single segment. -/
theorem splitColon_no_colon (s : Str) (h : (58 : Nat) ∉ s) : splitColon s = [s] := by
  induction s with
  | nil => rfl
  | cons c rest ih =>
      have hc : c ≠ 58 := fun hc => h (by simp [hc])
      unfold splitColon
      rw [if_neg hc, ih fun hr => h (List.mem_cons_of_mem _ hr)]

/-- Splitting past a colon-free first segment peels it off. -/
theorem splitColon_append (a t : Str) (h : (58 : Nat) ∉ a) :
    splitColon (a ++ 58 :: t) = a :: splitColon t := by
  induction a with
  | nil => simp [splitColon]
  | cons c rest ih =>
      have hc : c ≠ 58 := fun hc => h (by simp [hc])
      simp only [List.cons_append]
      rw [splitColon, if_neg hc, ih fun hr => h (List.mem_cons_of_mem _ hr)]

/-- Joining two or more segments puts a colon after the first. -/
theorem joinColon_cons (a b : Str) (l : List Str) :
    joinColon (a :: b :: l) = a ++ 58 :: joinColon (b :: l) := by
  unfold joinColon
  rw [List.intersperse_cons_cons]
  simp

/-- Splitting inverts joining for colon-free segments. -/
theorem splitColon_joinColon (segs : List Str) (hne : segs ≠ [])
    (h : ∀ seg ∈ segs, (58 : Nat) ∉ seg) : splitColon (joinColon segs) = segs := by
  induction segs with
  | nil => exact absurd rfl hne
  | cons a tail ih =>
      cases tail with
      | nil =>
          have : joinColon [a] = a := by simp [joinColon]
          rw [this]
          exact splitColon_no_colon a (h a (by simp))
      | cons b l =>
          rw [joinColon_cons, splitColon_append a _ (h a (by simp)),
            ih (by simp) fun seg hseg => h seg (List.mem_cons_of_mem _ hseg)]

/-- Decimal digits are below 10. -/
theorem natDigits_lt (n : Nat) : ∀ d ∈ natDigits n, d < 10 := by
  induction n using Nat.strong_induction_on with
  | _ n ih =>
      match n with
      | 0 => intro d hd; simp [natDigits] at hd
      | m + 1 =>
          intro d hd
          rw [natDigits] at hd
          rcases List.mem_append.mp hd with h | h
          · exact ih ((m + 1) / 10) (Nat.div_lt_self (by omega) (by omega)) d h
          · have : d = (m + 1) % 10 := by simpa using h
            subst this
            exact Nat.mod_lt _ (by omega)

/-- A positive number has at least one digit. -/
theorem natDigits_ne_nil (n : Nat) (h : n ≠ 0) : natDigits n ≠ [] := by
  match n with
  | m + 1 =>
      rw [natDigits]
      simp

/-- Folding the digit characters of `n` back into a number. -/
theorem foldl_digits (n : Nat) : ∀ a : Nat,
    ((natDigits n).map (· + 48)).foldl (fun x c => 10 * x + (c - 48)) a =
      a * 10 ^ (natDigits n).length + n := by
  induction n using Nat.strong_induction_on with
  | _ n ih =>
      match n with
      | 0 => intro a; simp [natDigits]
      | m + 1 =>
          intro a
          rw [natDigits, List.map_append, List.foldl_append,
            ih ((m + 1) / 10) (Nat.div_lt_self (by omega) (by omega)) a,
            List.length_append]
          simp only [List.map_cons, List.map_nil, List.foldl_cons, List.foldl_nil,
            List.length_cons, List.length_nil]
          have hmod := Nat.div_add_mod (m + 1) 10
          have he : (m + 1) % 10 + 48 - 48 = (m + 1) % 10 := by omega
          rw [he, pow_succ]
          set q := 10 ^ (natDigits ((m + 1) / 10)).length with hq
          have : a * (q * 10) = (a * q) * 10 := by ring
          rw [this]
          omega

/-- Every character of a formatted number is a decimal digit. -/
theorem natToStr_digits (p : Nat) : ∀ c ∈ natToStr p, 48 ≤ c ∧ c ≤ 57 := by
  intro c hc
  unfold natToStr at hc
  split at hc
  · simp at hc
    omega
  · obtain ⟨d, hd, rfl⟩ := List.mem_map.mp hc
    have := natDigits_lt _ d hd
    omega

/-- Formatted numbers are nonempty. -/
theorem natToStr_ne_nil (p : Nat) : natToStr p ≠ [] := by
  unfold natToStr
  split
  · simp
  · next h =>
      intro hmap
      exact natDigits_ne_nil p h (List.map_eq_nil_iff.mp hmap)

/-- Formatted numbers contain no escapable character. -/
theorem natToStr_plain (p : Nat) : plainB (natToStr p) = true := by
  apply List.all_eq_true.mpr
  intro c hc
  have := natToStr_digits p c hc
  simp [isEncodable]
  omega

/-- Formatted numbers contain no colon. -/
theorem natToStr_no_colon (p : Nat) : (58 : Nat) ∉ natToStr p := by
  intro hmem
  have := natToStr_digits p 58 hmem
  omega

/-- Parsing inverts formatting for numbers fitting in `u64`. -/
theorem natParse_natToStr (p : Nat) (hp : p < 2 ^ 64) :
    natParse (natToStr p) = some p := by
  have hplus : stripPlus (natToStr p) = natToStr p := by
    have hne := natToStr_ne_nil p
    cases hs : natToStr p with
    | nil => exact absurd hs hne
    | cons c cs =>
        have hc : 48 ≤ c ∧ c ≤ 57 := natToStr_digits p c (hs ▸ List.mem_cons_self c cs)
        unfold stripPlus
        split
        · next heq =>
            rw [List.cons.injEq] at heq
            omega
        · rfl
  unfold natParse
  rw [hplus]
  rw [if_pos ⟨natToStr_ne_nil p, List.all_eq_true.mpr fun c hc => by
    have := natToStr_digits p c hc
    simp [isDigitCh]
    omega⟩]
  have hfold : (natToStr p).foldl (fun a c => 10 * a + (c - 48)) 0 = p := by
    unfold natToStr
    split
    · next h0 => subst h0; rfl
    · rw [foldl_digits p 0]
      simp
  rw [hfold, if_pos hp]

/-- Characters `encode` leaves alone produce a zero-copy pass-through. -/
theorem encode_plain (s : Str) (h : plainB s = true) : encode s = s := by
  unfold encode
  have hfil : s.filter (fun c => isEncodable c) = [] := by
    apply List.filter_eq_nil_iff.mpr
    intro a ha
    have := List.all_eq_true.mp h a ha
    simpa using this
  rw [if_pos (by rw [hfil]; rfl)]

/-- Plain strings contain no colon. -/
theorem plain_no_colon (s : Str) (h : plainB s = true) : (58 : Nat) ∉ s := by
  intro hmem
  have := List.all_eq_true.mp h 58 hmem
  simp [isEncodable] at this

/-- C7. Default truncation, at the representative records with trailing
optional/default-bearing fields: an `Install` frame truncated at the
(default-bearing, flattened) `filter` field — entirely, or inside it after
the filter key — still deserializes, the omitted fields taking their
defaults, and re-serializing reproduces exactly the truncated frame; a
`Message` frame truncated at its trailing flattened map likewise
deserializes to an empty map and re-serializes to the truncated frame. -/
theorem default_truncation (p : Nat) (hp : p < 2 ^ 64) (nm k id rv : Str)
    (hnm : plainB nm = true) (hk : plainB k = true) (hknil : k ≠ [])
    (hid : plainB id = true) (hrv : plainB rv = true) :
    (parseInstall (joinColon [strOf "%%>install", natToStr p, nm]) =
        .ok ⟨some p, nm, none⟩ ∧
      serializeInstall ⟨some p, nm, none⟩ =
        joinColon [strOf "%%>install", natToStr p, nm])
    ∧ (parseInstall (joinColon [strOf "%%>install", natToStr p, nm, k]) =
        .ok ⟨some p, nm, some (k, none)⟩ ∧
      serializeInstall ⟨some p, nm, some (k, none)⟩ =
        joinColon [strOf "%%>install", natToStr p, nm, k])
    ∧ (parseMessage (joinColon [strOf "%%>message", id, natToStr p, nm, rv]) =
        .ok ⟨id, p, nm, rv, []⟩ ∧
      serializeMessage ⟨id, p, nm, rv, []⟩ =
        joinColon [strOf "%%>message", id, natToStr p, nm, rv]) :=
  by
  refine ⟨⟨?_, ?_⟩, ⟨?_, ?_⟩, ⟨?_, ?_⟩⟩
  · have hsplit : splitColon (joinColon [strOf "%%>install", natToStr p, nm]) =
        [strOf "%%>install", natToStr p, nm] := by
      apply splitColon_joinColon _ (by simp)
      intro seg hseg
      simp only [List.mem_cons, List.not_mem_nil, or_false] at hseg
      rcases hseg with rfl | rfl | rfl
      · decide
      · exact natToStr_no_colon p
      · exact plain_no_colon _ hnm
    have hfrom : fromStrS installShape (joinColon [strOf "%%>install", natToStr p, nm]) =
        Except.ok (DValue.vstruct [.vsome (.vnat p), .vstr nm, .vnone]) := by
      unfold fromStrS
      rw [hsplit]
      simp [installShape, deserializeValue, deserializeFields, checkTag, parseScalar,
        setDefault, natParse_natToStr p hp, natToStr_ne_nil p, Except.map]
    simp [parseInstall, hfrom]
  · unfold serializeInstall toStrS Install.toValue
    simp [installShape, serializeValue, serializeFields,
      encode_plain nm hnm, encode_plain (natToStr p) (natToStr_plain p)]
  · have hsplit : splitColon (joinColon [strOf "%%>install", natToStr p, nm, k]) =
        [strOf "%%>install", natToStr p, nm, k] := by
      apply splitColon_joinColon _ (by simp)
      intro seg hseg
      simp only [List.mem_cons, List.not_mem_nil, or_false] at hseg
      rcases hseg with rfl | rfl | rfl | rfl
      · decide
      · exact natToStr_no_colon p
      · exact plain_no_colon _ hnm
      · exact plain_no_colon _ hk
    have hfrom : fromStrS installShape (joinColon [strOf "%%>install", natToStr p, nm, k]) =
        Except.ok (DValue.vstruct
          [.vsome (.vnat p), .vstr nm, .vsome (.vstruct [.vstr k, .vnone])]) := by
      unfold fromStrS
      rw [hsplit]
      simp [installShape, deserializeValue, deserializeFields, checkTag, parseScalar,
        setDefault, natParse_natToStr p hp, natToStr_ne_nil p, hknil, Except.map]
    simp [parseInstall, hfrom]
  · unfold serializeInstall toStrS Install.toValue
    simp [installShape, serializeValue, serializeFields,
      encode_plain nm hnm, encode_plain k hk, encode_plain (natToStr p) (natToStr_plain p)]
  · have hsplit : splitColon (joinColon [strOf "%%>message", id, natToStr p, nm, rv]) =
        [strOf "%%>message", id, natToStr p, nm, rv] := by
      apply splitColon_joinColon _ (by simp)
      intro seg hseg
      simp only [List.mem_cons, List.not_mem_nil, or_false] at hseg
      rcases hseg with rfl | rfl | rfl | rfl | rfl
      · decide
      · exact plain_no_colon _ hid
      · exact natToStr_no_colon p
      · exact plain_no_colon _ hnm
      · exact plain_no_colon _ hrv
    have hfrom : fromStrS messageShape (joinColon [strOf "%%>message", id, natToStr p, nm, rv]) =
        Except.ok (DValue.vstruct
          [.vstr id, .vnat p, .vstr nm, .vstr rv, .vmap []]) := by
      unfold fromStrS
      rw [hsplit]
      have hmp : deserializeMapParts [] = .ok [] := rfl
      simp [messageShape, deserializeValue, deserializeFields, checkTag, parseScalar,
        hmp, setDefault, natParse_natToStr p hp, Except.map]
    simp [parseMessage, hfrom, mkKv]
  · unfold serializeMessage toStrS Message.toValue
    simp [messageShape, serializeValue, serializeFields, encode_plain id hid,
      encode_plain nm hnm, encode_plain rv hrv, encode_plain (natToStr p) (natToStr_plain p)]

/-- Witness for C7 at the fixture-like frame
`%%>install:50:engine.timer:key` and friends. -/
theorem default_truncation_witness :
    (parseInstall (joinColon [strOf "%%>install", natToStr 50, strOf "engine.timer",
        strOf "key"]) =
      .ok ⟨some 50, strOf "engine.timer", some (strOf "key", none)⟩) ∧
    serializeInstall ⟨some 50, strOf "engine.timer", some (strOf "key", none)⟩ =
      joinColon [strOf "%%>install", natToStr 50, strOf "engine.timer", strOf "key"] :=
  (default_truncation 50 (by decide) (strOf "engine.timer") (strOf "key")
    (strOf "v1") [] (by decide) (by decide) (by decide) (by decide) (by decide)).2.1
